import Mathlib

/-!
Shallow embedding of the quant-assistant backend (routers/options.py,
routers/allocation.py, routers/screener.py, services/options_pricing.py,
services/monte_carlo.py) together with theorems settling the frozen claims.

Modelling conventions:
* Python floats are modelled as real numbers; `float("nan")` results are
  modelled as `none : Option ℝ` and NaN propagation as `Option.map`/`Option.bind`.
* A Python exception escaping a function is modelled as `Except.error`;
  functions that cannot raise return plain values.
* Network and random inputs (provider responses, price histories, normal
  draws) are passed in as explicit parameters.
-/

namespace Quant

open scoped Classical

/-- A Python exception kind, as far as the claims need to distinguish them. -/
inductive PyExc
  | zeroDivision
  | mathDomain
  | indexError
  deriving DecidableEq, Repr

/-- The Python built-in `round(x, n)`, modelled as round-half-up to `n` decimal
places. (CPython rounds ties to even on binary floats; no property proved here
depends on tie behaviour.) -/
noncomputable def pyRound (n : ℕ) (x : ℝ) : ℝ := (⌊x * 10 ^ n + 1 / 2⌋ : ℤ) / 10 ^ n

/-- Elementwise pandas division followed by
`.replace([np.inf, -np.inf], …).fillna(0.0)` as used for the RSI ratio in both
routers: a zero denominator produces `inf`/`-inf`/`NaN`, all of which the
source immediately maps to `0.0`. -/
noncomputable def pyDiv (a b : ℝ) : ℝ := if b = 0 then 0 else a / b

/-- `series.iloc[-k]` on a pandas series, as a list indexed from the end.
Only ever used under a length guard in the source. -/
def ilocNeg (l : List ℝ) (k : ℕ) : ℝ := l.getD (l.length - k) 0

/-- `series.diff().dropna()`: consecutive differences. -/
def diffList : List ℝ → List ℝ
  | [] => []
  | [_] => []
  | a :: b :: t => (b - a) :: diffList (b :: t)

/-- `series.ewm(…, adjust=False).mean()` after the first element:
`yᵢ = (1-α)·yᵢ₋₁ + α·xᵢ`. -/
def ewmAux (alpha y : ℝ) : List ℝ → List ℝ
  | [] => []
  | x :: xs =>
    let y2 := (1 - alpha) * y + alpha * x
    y2 :: ewmAux alpha y2 xs

/-- `series.ewm(alpha=…, adjust=False).mean()`: the first output equals the
first input, later outputs follow the recursion of `ewmAux`. -/
def ewmMean (alpha : ℝ) : List ℝ → List ℝ
  | [] => []
  | x :: xs => x :: ewmAux alpha x xs

/-- `ema(series, span)` from `routers/options.py` / `routers/screener.py`:
`series.ewm(span=span, adjust=False).mean()`, i.e. `alpha = 2/(span+1)`. -/
noncomputable def ema (s : List ℝ) (span : ℕ) : List ℝ := ewmMean (2 / (span + 1)) s

/-! ### The standard normal CDF of the source

`routers/options.py` defines `norm_cdf(x) = 0.5*(1 + erf(x/√2))` with
`math.erf`; we realise `erf` by its integral definition. -/

/-- The Gauss error function `erf x = (2/√π) ∫ t in 0..x, exp (-t²)`,
realising `math.erf`. -/
noncomputable def erf (x : ℝ) : ℝ :=
  2 / Real.sqrt Real.pi * ∫ t in (0:ℝ)..x, Real.exp (-t ^ 2)

/-- `norm_cdf` from `routers/options.py`: `0.5 * (1.0 + math.erf(x / SQRT_2))`. -/
noncomputable def norm_cdf (x : ℝ) : ℝ := 0.5 * (1 + erf (x / Real.sqrt 2))

lemma gaussIntegrable : MeasureTheory.Integrable (fun t : ℝ => Real.exp (-t ^ 2)) := by
  have h := integrable_exp_neg_mul_sq (b := 1) one_pos
  simpa using h

lemma gaussIoi : (∫ t in Set.Ioi (0:ℝ), Real.exp (-t ^ 2)) = Real.sqrt Real.pi / 2 := by
  have h := integral_gaussian_Ioi 1
  simpa using h

lemma gaussInt_nonneg {x : ℝ} (hx : 0 ≤ x) :
    0 ≤ ∫ t in (0:ℝ)..x, Real.exp (-t ^ 2) :=
  intervalIntegral.integral_nonneg hx (fun _ _ => (Real.exp_pos _).le)

lemma gaussInt_lt {x : ℝ} (hx : 0 ≤ x) :
    (∫ t in (0:ℝ)..x, Real.exp (-t ^ 2)) < Real.sqrt Real.pi / 2 := by
  have hIoiPos : 0 < ∫ t in Set.Ioi x, Real.exp (-t ^ 2) := by
    have h1 : (∫ t in Set.Ioc x (x + 1), Real.exp (-t ^ 2)) ≤
        ∫ t in Set.Ioi x, Real.exp (-t ^ 2) := by
      refine MeasureTheory.setIntegral_mono_set gaussIntegrable.integrableOn ?_ ?_
      · exact Filter.Eventually.of_forall fun s => (Real.exp_pos _).le
      · exact HasSubset.Subset.eventuallyLE Set.Ioc_subset_Ioi_self
    have h2 : 0 < ∫ t in Set.Ioc x (x + 1), Real.exp (-t ^ 2) := by
      rw [← intervalIntegral.integral_of_le (by linarith)]
      exact intervalIntegral.intervalIntegral_pos_of_pos_on
        gaussIntegrable.intervalIntegrable (fun t _ => Real.exp_pos _) (by linarith)
    linarith
  have hsplit : (∫ t in Set.Ioi (0:ℝ), Real.exp (-t ^ 2)) =
      (∫ t in Set.Ioc 0 x, Real.exp (-t ^ 2)) + ∫ t in Set.Ioi x, Real.exp (-t ^ 2) := by
    rw [← MeasureTheory.setIntegral_union (Set.Ioc_disjoint_Ioi le_rfl) measurableSet_Ioi
      gaussIntegrable.integrableOn gaussIntegrable.integrableOn,
      Set.Ioc_union_Ioi_eq_Ioi hx]
  rw [intervalIntegral.integral_of_le hx]
  have := gaussIoi
  linarith [hsplit, this]

lemma gaussInt_neg (x : ℝ) :
    (∫ t in (0:ℝ)..(-x), Real.exp (-t ^ 2)) = -∫ t in (0:ℝ)..x, Real.exp (-t ^ 2) := by
  have h := intervalIntegral.integral_comp_neg (a := (0:ℝ)) (b := x)
    (f := fun t => Real.exp (-t ^ 2))
  simp only [neg_sq, neg_zero] at h
  rw [intervalIntegral.integral_symm 0 (-x)] at h
  linarith

lemma abs_gaussInt_lt (x : ℝ) :
    |∫ t in (0:ℝ)..x, Real.exp (-t ^ 2)| < Real.sqrt Real.pi / 2 := by
  rcases le_or_lt 0 x with hx | hx
  · rw [abs_of_nonneg (gaussInt_nonneg hx)]
    exact gaussInt_lt hx
  · have h2 : (∫ t in (0:ℝ)..x, Real.exp (-t ^ 2)) =
        -∫ t in (0:ℝ)..(-x), Real.exp (-t ^ 2) := by
      have h3 := gaussInt_neg (-x)
      rw [neg_neg] at h3
      linarith
    rw [h2, abs_neg, abs_of_nonneg (gaussInt_nonneg (by linarith))]
    exact gaussInt_lt (by linarith)

lemma erf_mem_Ioo (x : ℝ) : -1 < erf x ∧ erf x < 1 := by
  have h := abs_gaussInt_lt x
  rw [abs_lt] at h
  have hs : 0 < Real.sqrt Real.pi := Real.sqrt_pos.mpr Real.pi_pos
  have hc : 0 < 2 / Real.sqrt Real.pi := by positivity
  have key : 2 / Real.sqrt Real.pi * (Real.sqrt Real.pi / 2) = 1 := by
    field_simp
  unfold erf
  constructor
  · nlinarith [h.1, h.2]
  · nlinarith [h.1, h.2]

lemma norm_cdf_pos (x : ℝ) : 0 < norm_cdf x := by
  have h := erf_mem_Ioo (x / Real.sqrt 2)
  unfold norm_cdf
  linarith [h.1]

lemma norm_cdf_lt_one (x : ℝ) : norm_cdf x < 1 := by
  have h := erf_mem_Ioo (x / Real.sqrt 2)
  unfold norm_cdf
  linarith [h.2]

/-! ### Black–Scholes helpers from `routers/options.py` -/

/-- `bs_d1` from `routers/options.py`; the degenerate guard returns
`float("nan")`, modelled as `none`. -/
noncomputable def bs_d1 (S K T r sigma : ℝ) : Option ℝ :=
  if S ≤ 0 ∨ K ≤ 0 ∨ sigma ≤ 0 ∨ T ≤ 0 then none
  else some ((Real.log (S / K) + (r + 0.5 * sigma * sigma) * T) / (sigma * Real.sqrt T))

/-- `bs_d2` from `routers/options.py`: `d1 - sigma*sqrt(T)` when `d1` is
finite and `sigma>0` and `T>0`, else `float("nan")`. -/
noncomputable def bs_d2 (d1 : Option ℝ) (sigma T : ℝ) : Option ℝ :=
  match d1 with
  | some d => if 0 < sigma ∧ 0 < T then some (d - sigma * Real.sqrt T) else none
  | none => none

/-- `call_delta` from `routers/options.py`: `norm_cdf(bs_d1(...))`
(`norm_cdf` of NaN is NaN, hence the `Option.map`). -/
noncomputable def call_delta (S K T r sigma : ℝ) : Option ℝ :=
  (bs_d1 S K T r sigma).map norm_cdf

/-- `put_delta` from `routers/options.py`: `call_delta(...) - 1.0`. -/
noncomputable def put_delta (S K T r sigma : ℝ) : Option ℝ :=
  (call_delta S K T r sigma).map (fun c => c - 1)

/-- `prob_ST_above_x` from `routers/options.py`: risk-neutral chance that
`S_T > x` in the lognormal model, `NaN` (here `none`) unless all of
`S, x, T, sigma` are positive. -/
noncomputable def prob_ST_above_x (S x T r sigma : ℝ) : Option ℝ :=
  if 0 < S ∧ 0 < x ∧ 0 < T ∧ 0 < sigma then
    some (norm_cdf ((Real.log (S / x) + (r - 0.5 * sigma * sigma) * T) / (sigma * Real.sqrt T)))
  else none

/-! ### `services/options_pricing.py` -/

/-- `BSParams` from `services/options_pricing.py`. -/
structure BSParams where
  S : ℝ
  K : ℝ
  T : ℝ
  r : ℝ
  sigma : ℝ

/-- `d1` from `services/options_pricing.py`. Unlike `bs_d1` it has no guard:
Python evaluates `p.S/p.K` (ZeroDivisionError when `K = 0`), then `math.log`
(ValueError when the argument is not positive), then `math.sqrt(p.T)`
(ValueError when `T < 0`), then divides (ZeroDivisionError when the
denominator is zero). -/
noncomputable def pricing.d1 (p : BSParams) : Except PyExc ℝ :=
  if p.K = 0 then .error .zeroDivision
  else if p.S / p.K ≤ 0 then .error .mathDomain
  else if p.T < 0 then .error .mathDomain
  else if p.sigma * Real.sqrt p.T = 0 then .error .zeroDivision
  else .ok ((Real.log (p.S / p.K) + (p.r + 0.5 * p.sigma ^ 2) * p.T) / (p.sigma * Real.sqrt p.T))

/-- `d2` from `services/options_pricing.py`: `d1(p) - p.sigma*sqrt(p.T)`,
propagating any exception raised by `d1`. -/
noncomputable def pricing.d2 (p : BSParams) : Except PyExc ℝ :=
  (pricing.d1 p).map (fun d => d - p.sigma * Real.sqrt p.T)

/-- `prob_finish_above_strike` from `services/options_pricing.py`: NaN
(`none`) when `T ≤ 0` or `sigma ≤ 0`, otherwise `norm.cdf(d2(p))` — any
exception raised by `d2` propagates (nothing catches it). `Φ` of a real
argument is always finite, so the `isfinite` fallback never fires. -/
noncomputable def pricing.prob_finish_above_strike (p : BSParams) : Except PyExc (Option ℝ) :=
  if p.T ≤ 0 ∨ p.sigma ≤ 0 then .ok none
  else (pricing.d2 p).map (fun d => some (norm_cdf d))

/-! ### Contract enrichment (`enrich_contracts`, `routers/options.py`) -/

/-- A raw option-chain row after provider normalisation. The source reads each
field with `rrow.get(…) or 0`/`or 0.0`, so a missing or null field arrives here
as `0`. -/
structure RawRow where
  strike : ℝ
  bid : ℝ
  ask : ℝ
  lastPrice : ℝ
  openInterest : ℤ
  volume : ℤ
  impliedVolatility : ℝ

/-- An enriched contract record as appended by `enrich_contracts`. Expiry
dates are modelled as integer day numbers (the source carries ISO strings). -/
structure EnrichedContract where
  expiry : ℤ
  type : String
  strike : ℝ
  mid_price : ℝ
  iv : ℝ
  delta : Option ℝ
  breakeven : ℝ
  oi : ℤ
  volume : ℤ
  chance_profit : Option ℝ

/-- The mid premium of a raw row: `(bid+ask)/2` when either side is positive,
else the last trade price. -/
noncomputable def rowPremium (rrow : RawRow) : ℝ :=
  if 0 < rrow.bid ∨ 0 < rrow.ask then (rrow.bid + rrow.ask) / 2 else rrow.lastPrice

/-- `enrich_contracts(S, expiry_iso, rows, is_call)` from `routers/options.py`.
`expiry_iso = none` models an expiry string that `date.fromisoformat` rejects
(the bare `except: return out` branch); `today` is `dt.date.today()`. A row is
kept iff `math.isfinite(S) and K>0 and premium>0`; `math.isfinite(S)` is true
for every real number (an infinite or NaN float has no counterpart here), so
only `K` and the premium are effectively tested. -/
noncomputable def enrich_contracts (S : ℝ) (expiry_iso : Option ℤ) (today : ℤ)
    (rows : List RawRow) (is_call : Bool) : List EnrichedContract :=
  match expiry_iso with
  | none => []
  | some expiry =>
    let T : ℝ := max (((expiry - today : ℤ) : ℝ) / 365) (1 / 365)
    let r : ℝ := 0
    rows.filterMap (fun rrow =>
      let K := rrow.strike
      let premium := rowPremium rrow
      let sigma := max rrow.impliedVolatility (1 / 1000000)
      if ¬(0 < K ∧ 0 < premium) then none
      else
        let dlt := if is_call then call_delta S K T r sigma
                   else (call_delta S K T r sigma).map (fun c => c - 1)
        let breakeven := if is_call then K + premium else K - premium
        let p_profit := if is_call then prob_ST_above_x S breakeven T r sigma
                        else (prob_ST_above_x S breakeven T r sigma).map (fun q => 1 - q)
        some { expiry := expiry
               type := if is_call then "CALL" else "PUT"
               strike := pyRound 4 K
               mid_price := pyRound 4 premium
               iv := pyRound 6 sigma
               delta := dlt.map (pyRound 4)
               breakeven := pyRound 4 breakeven
               oi := rrow.openInterest
               volume := rrow.volume
               chance_profit := p_profit.map (pyRound 6) })

/-- `confidence_score` from `routers/options.py`: additive liquidity and
sanity buckets, capped at 100. `if c.get("iv")` is a Python truthiness test,
i.e. `iv ≠ 0`. -/
noncomputable def confidence_score (c : EnrichedContract) : ℤ :=
  let s1 : ℤ := if 500 ≤ c.oi then 35 else if 200 ≤ c.oi then 25 else if 50 ≤ c.oi then 15 else 0
  let s2 : ℤ := if 200 ≤ c.volume then 20 else if 50 ≤ c.volume then 12
                else if 10 ≤ c.volume then 6 else 0
  let s3 : ℤ := if c.iv ≠ 0 then 15 else 0
  let s4 : ℤ := match c.delta with
    | some d => if 1/10 ≤ |d| ∧ |d| ≤ 6/10 then 15 else 0
    | none => 0
  let s5 : ℤ := if c.mid_price * 100 ≤ 300 then 10
                else if c.mid_price * 100 ≤ 800 then 6 else 2
  min 100 (s1 + s2 + s3 + s4 + s5)

/-! ### Trend engine (`compute_trend`, `routers/options.py`) -/

/-- Result of `compute_trend`. The insufficient-history branch returns a dict
without an `rsi` key, hence `rsi : Option ℝ`; the human-readable `notes`
strings are presentation only and omitted. -/
structure TrendResult where
  trend : String
  score : ℝ
  rsi : Option ℝ

/-- `compute_trend` from `routers/options.py`, as a function of the fetched
close-price history `S` (the `fetch_hist` network call is the caller's
responsibility; a failed fetch behaves like a too-short history). -/
noncomputable def compute_trend (S : List ℝ) : TrendResult :=
  if S.length < 50 then { trend := "neutral", score := 0, rsi := none }
  else
    let ema20 := ema S 20
    let ema50 := ema S 50
    let ret10 : ℝ := if 11 < S.length then ilocNeg S 1 / ilocNeg S 11 - 1 else 0
    let delta := diffList S
    let up := delta.map (fun d => max d 0)
    let down := delta.map (fun d => max (-d) 0)
    let roll_up := ewmMean (1/14) up
    let roll_down := ewmMean (1/14) down
    let rs := List.zipWith pyDiv roll_up roll_down
    let rsi := rs.map (fun v => 100 - 100 / (1 + v))
    let rsi_val := ilocNeg rsi 1
    let score1 : ℝ := if ilocNeg ema50 1 < ilocNeg ema20 1 then 4/10 else 0
    let score2 : ℝ := if 0 < ret10 then 3/10 else 0
    let score := score1 + score2 + 3/10 * max 0 (1 - |rsi_val - 50| / 50)
    let trend := if 55/100 ≤ score then "up" else if score ≤ 35/100 then "down" else "neutral"
    { trend := trend, score := score, rsi := some rsi_val }

/-! ### Monte Carlo P/L sampler (`simulate_option_pl_samples`, `routers/options.py`) -/

/-- `np.percentile` with the default linear interpolation, over an ascending
sort of the data. On an empty array `np.percentile` raises `IndexError`. -/
noncomputable def np_percentile (l : List ℝ) (q : ℝ) : Except PyExc ℝ :=
  if l = [] then .error .indexError
  else
    let s := l.insertionSort (· ≤ ·)
    let n := s.length
    let h : ℝ := q / 100 * (n - 1)
    let lo : ℕ := ⌊h⌋.toNat
    let x0 := s.getD lo 0
    let x1 := s.getD (min (lo + 1) (n - 1)) 0
    .ok (x0 + (h - (⌊h⌋ : ℝ)) * (x1 - x0))

/-- `np.linspace(0, n-1, m).astype(int)` index selection used to down-sample
the payoff array. -/
def linspaceIdx (n m j : ℕ) : ℕ := if m ≤ 1 then 0 else j * (n - 1) / (m - 1)

/-- The result dict of `simulate_option_pl_samples`. -/
structure SimResult where
  pl_p5 : ℝ
  pl_p50 : ℝ
  pl_p95 : ℝ
  prob_profit : ℝ
  samples : List ℝ

/-- `simulate_option_pl_samples` from `routers/options.py`. `mu_sig` is the
result of `estimate_mu_sigma_daily(symbol)` (a network estimate; `(None, None)`
on failure or short history), `Z` the stream of `np.random.normal` draws and
`otype` the already-uppercased option type. `np.percentile` on the empty
payoff array raises, modelled as `Except.error`. -/
noncomputable def simulate_option_pl_samples (mu_sig : Option (ℝ × ℝ))
    (S K premium : ℝ) (T_days : ℤ) (otype : String)
    (n_paths sample_out : ℕ) (Z : ℕ → ℝ) : Except PyExc (Option SimResult) :=
  match mu_sig with
  | none => .ok none
  | some (mu_d, sig_d) =>
    if S ≤ 0 ∨ K ≤ 0 ∨ T_days ≤ 0 then .ok none
    else
      let T : ℝ := (T_days : ℤ)
      let ST : ℕ → ℝ := fun i =>
        S * Real.exp ((mu_d - 0.5 * sig_d ^ 2) * T + sig_d * Real.sqrt T * Z i)
      let payoff : List ℝ := (List.range n_paths).map (fun i =>
        if otype = "CALL" then max (ST i - K) 0 - premium else max (K - ST i) 0 - premium)
      do
        let p5 ← np_percentile payoff 5
        let p50 ← np_percentile payoff 50
        let p95 ← np_percentile payoff 95
        let prob_profit : ℝ := ((payoff.filter (fun x => 0 < x)).length : ℕ) / (payoff.length : ℕ)
        let samples := if sample_out < n_paths then
            (List.range sample_out).map (fun j => pyRound 2 (payoff.getD (linspaceIdx n_paths sample_out j) 0))
          else payoff.map (pyRound 2)
        pure (some { pl_p5 := p5, pl_p50 := p50, pl_p95 := p95,
                     prob_profit := prob_profit, samples := samples })

/-! ### Chain loading (`load_chain`, `routers/options.py`)

Provider interactions are passed in as an environment: each network access is
an `Except`, whose `error` side models a raised exception (with the flag
recording whether the message indicates HTTP 429). -/

/-- A provider exception; `is429` records whether `"429"`/`"Too Many
Requests"` occurs in its message. -/
structure ProviderErr where
  is429 : Bool
  deriving DecidableEq, Repr

/-- The advisory note strings `load_chain` and the selection code attach;
modelled as an enumeration of the distinct constant strings of the source. -/
inductive Note
  | rateLimited429
  | yfOtherError
  | providerOtherError
  | noExpiriesInWindow
  | noAffordableLiquid
  deriving DecidableEq, Repr

/-- One normalized chain entry `{expiry, dte, calls, puts}`. -/
structure BookChain where
  expiry : ℤ
  dte : ℤ
  calls : List RawRow
  puts : List RawRow

/-- The `{price, expiries, chains, note?}` result shape of `load_chain`. -/
structure Book where
  price : Option ℝ
  expiries : List ℤ
  chains : List BookChain
  note : Option Note

/-- The yfinance side of the environment: the listed expiries (`none` entries
model unparsable expiry strings), the two price sources, and the per-expiry
chain download. -/
structure YfEnv where
  options : Except ProviderErr (List (Option ℤ))
  fastInfoPrice : Except ProviderErr ℝ
  histLastClose : Except ProviderErr ℝ
  optionChain : ℤ → Except ProviderErr (List RawRow × List RawRow)

/-- The normalized output of `_v7_options_book`: price, expiry dates and raw
chains (each with its expiry parse result). -/
structure V7Book where
  price : Option ℝ
  expiries : List ℤ
  chains : List (Option ℤ × List RawRow × List RawRow)

/-- The full environment of one `load_chain` run. `yf = none` models a failed
yfinance import. -/
structure LoadEnv where
  yf : Option YfEnv
  v7 : Except ProviderErr V7Book
  today : ℤ

/-- The note produced by the `except` arms of `load_chain` for a provider
exception in the yfinance path. -/
def yfNote (e : ProviderErr) : Note :=
  if e.is429 then .rateLimited429 else .yfOtherError

/-- The note produced by the final `except` arm of `load_chain` for an
exception in the Yahoo-v7 path. -/
def v7Note (e : ProviderErr) : Note :=
  if e.is429 then .rateLimited429 else .providerOtherError

/-- The per-expiry filter of the yfinance path: parse (`none` = parse
failure, skipped) and keep only expiries with `min_dte ≤ dte ≤ max_dte`,
producing the `(date, dte)` pair of the `valid` list. -/
def yfValidEntry (today min_dte max_dte : ℤ) (o : Option ℤ) : Option (ℤ × ℤ) :=
  o.bind (fun d =>
    let dte := d - today
    if min_dte ≤ dte ∧ dte ≤ max_dte then some (d, dte) else none)

/-- One iteration of the chain-download loop of the yfinance path: a failed
`option_chain` call is skipped (`continue`), a successful one is appended. -/
def yfEmit (x : (ℤ × ℤ) × Except ProviderErr (List RawRow × List RawRow)) :
    Option BookChain :=
  match x.2 with
  | .ok cp => some { expiry := x.1.1, dte := x.1.2, calls := cp.1, puts := cp.2 }
  | .error _ => none

/-- First half of `load_chain`: the yfinance attempt. Returns the book when
the path produced at least one chain, otherwise the note to carry into the
fallback (`none` when no exception and no 429 was seen). -/
noncomputable def loadChainYf (env : LoadEnv) (y : YfEnv) (min_dte max_dte : ℤ) :
    Option Book × Option Note :=
  match y.options with
  | .error e => (none, some (yfNote e))
  | .ok exps =>
    let valid := exps.filterMap (yfValidEntry env.today min_dte max_dte)
    let S : Option ℝ :=
      match y.fastInfoPrice with
      | .ok p => some p
      | .error _ =>
        match y.histLastClose with
        | .ok p => some p
        | .error _ => none
    let fetched := valid.map (fun de => (de, y.optionChain de.1))
    let chains := fetched.filterMap yfEmit
    let note1 : Option Note :=
      if fetched.any (fun x => match x.2 with | .error e => e.is429 | .ok _ => false) then
        some .rateLimited429
      else none
    if chains = [] then (none, note1)
    else (some { price := S, expiries := valid.map (fun de => de.1), chains := chains,
                 note := note1 }, note1)

/-- One iteration of the v7 chain filter: skip unparsable expiries, keep the
chain (with its `dte` set) iff the expiry falls in the requested window. -/
def v7Emit (today min_dte max_dte : ℤ) (c : Option ℤ × List RawRow × List RawRow) :
    Option BookChain :=
  match c.1 with
  | none => none
  | some d =>
    let dte := d - today
    if min_dte ≤ dte ∧ dte ≤ max_dte then
      some { expiry := d, dte := dte, calls := c.2.1, puts := c.2.2 }
    else none

/-- Second half of `load_chain`: the Yahoo-v7 fallback block, entered with the
note carried out of the yfinance attempt. -/
noncomputable def loadChainV7 (env : LoadEnv) (note : Option Note) (min_dte max_dte : ℤ) :
    Except ProviderErr Book :=
  match env.v7 with
  | .ok v7 =>
    let chains_filt := v7.chains.filterMap (v7Emit env.today min_dte max_dte)
    let book : Book := { price := v7.price, expiries := chains_filt.map (fun c => c.expiry),
                         chains := chains_filt, note := none }
    if chains_filt.map (fun c => c.expiry) = ([] : List ℤ) then
      .ok { book with note := some (note.getD .noExpiriesInWindow) }
    else
      .ok { book with note := note }
  | .error e =>
    .ok { price := none, expiries := [], chains := [], note := some (v7Note e) }

/-- `load_chain` from `routers/options.py`. The outer `Except` is the
exception channel towards the caller: the function never uses it (every
provider failure is caught), which is exactly the never-raises contract. -/
noncomputable def load_chain (env : LoadEnv) (min_dte max_dte : ℤ) :
    Except ProviderErr Book :=
  match env.yf with
  | none => loadChainV7 env none min_dte max_dte
  | some y =>
    match loadChainYf env y min_dte max_dte with
    | (some book, _) => .ok book
    | (none, note) => loadChainV7 env note min_dte max_dte

/-! ### Contract selection (`pick_contracts_for_symbol`, `routers/options.py`) -/

/-- A candidate as mutated inside the selection loop: the enriched contract
plus the `delta_diff`, `conf` and `dte` keys added in place. -/
structure Candidate extends EnrichedContract where
  delta_diff : ℝ
  conf : ℤ
  dte : ℤ

/-- The sort key `(delta_diff, -conf, expiry)` of the selection ranking, as a
total preorder. -/
def candLE (a b : Candidate) : Prop :=
  a.delta_diff < b.delta_diff ∨
    (a.delta_diff = b.delta_diff ∧
      (b.conf < a.conf ∨ (a.conf = b.conf ∧ a.expiry ≤ b.expiry)))

/-- The response record of `pick_contracts_for_symbol`; the rationale strings
(`explanation`, `thought_process`) are presentation only and omitted. The two
no-candidate early returns leave `suggestion`, `confidence`, `cost_estimate`
and `sim` absent, hence the `Option`s. -/
structure PickResult where
  under_price : ℝ
  note : Option Note
  suggestion : Option Candidate
  confidence : Option ℤ
  cost_estimate : Option ℝ
  sim : Option SimResult

/-- The candidate-building loop of `pick_contracts_for_symbol`: enrich every
chain, keep the side matching the trend preference, and apply the
affordability, liquidity and delta filters (each `continue` of the source is
a `none` here); the kept candidates get their `delta_diff`, `conf` and `dte`
keys. `target_delta = 0.30`. -/
noncomputable def pickCands (book : Book) (prefer : String) (buying_power : ℝ)
    (today : ℤ) : List Candidate :=
  let S := book.price.getD 0
  let target_delta : ℝ := 3/10
  book.chains.flatMap (fun ch =>
    let calls := enrich_contracts S (some ch.expiry) today ch.calls true
    let puts := enrich_contracts S (some ch.expiry) today ch.puts false
    let rows := if prefer = "up" then calls
                else if prefer = "down" then puts
                else calls ++ puts
    rows.filterMap (fun c =>
      if buying_power < c.mid_price * 100 then none
      else if c.oi < 50 ∧ c.volume < 10 then none
      else
        match c.delta with
        | none => none
        | some d => some { toEnrichedContract := c
                           delta_diff := |(|d| - target_delta)|
                           conf := confidence_score c
                           dte := ch.dte }))

/-- `pick_contracts_for_symbol` from `routers/options.py`, as a function of
the loaded book, the computed trend, the buying power and the simulation
environment (`mu_sig`, `Z` as in `simulate_option_pl_samples`). The exception
channel exists only because the simulation call can in principle raise. -/
noncomputable def pick_contracts_for_symbol (book : Book) (trend : TrendResult)
    (buying_power : ℝ) (today : ℤ) (mu_sig : Option (ℝ × ℝ)) (Z : ℕ → ℝ) :
    Except PyExc PickResult :=
  let S := book.price.getD 0
  if book.chains = [] then
    .ok { under_price := S, note := book.note, suggestion := none,
          confidence := none, cost_estimate := none, sim := none }
  else
    let cands := pickCands book trend.trend buying_power today
    match cands.insertionSort candLE with
    | [] =>
      .ok { under_price := S, note := some (book.note.getD .noAffordableLiquid),
            suggestion := none, confidence := none, cost_estimate := none, sim := none }
    | best :: _ => do
      let days := best.expiry - today
      let sim ← simulate_option_pl_samples mu_sig S best.strike best.mid_price days
        best.type 1200 300 Z
      pure { under_price := S, note := book.note, suggestion := some best,
             confidence := some best.conf,
             cost_estimate := some (pyRound 2 (best.mid_price * 100)), sim := sim }

/-! ### Efficient frontier (`routers/allocation.py`) -/

/-- One sampled portfolio of the `efficient-frontier` endpoint. -/
structure PortfolioSample where
  weights : List ℝ
  mu : ℝ
  vol : ℝ
  sharpe : ℝ

/-- Dot product of two float vectors (`np.dot` on equal-length lists). -/
noncomputable def dot (a b : List ℝ) : ℝ := (List.zipWith (fun x y => x * y) a b).sum

/-- `w @ cov @ w` for a covariance matrix given as rows. -/
noncomputable def quadForm (cov : List (List ℝ)) (w : List ℝ) : ℝ :=
  dot w (cov.map (fun row => dot row w))

/-- One draw of `np.random.dirichlet(np.ones(n))`: a vector of standard
gamma/exponential draws normalised by its sum. -/
noncomputable def dirichlet (g : List ℝ) : List ℝ := g.map (fun x => x / g.sum)

/-- The body of the `efficient_frontier` endpoint from `routers/allocation.py`:
map each of the 5000 Dirichlet draws (here: the underlying gamma vectors
`draws`) to a portfolio sample, sort by descending Sharpe ratio, return the
top 25. -/
noncomputable def efficient_frontier (draws : List (List ℝ)) (exp_returns : List ℝ)
    (cov : List (List ℝ)) : List PortfolioSample :=
  let grid := draws.map (fun g =>
    let w := dirichlet g
    let mu := dot w exp_returns
    let vol := Real.sqrt (quadForm cov w)
    { weights := w, mu := mu, vol := vol,
      sharpe := if 0 < vol then mu / vol else 0 : PortfolioSample })
  (grid.insertionSort (fun a b => b.sharpe ≤ a.sharpe)).take 25

/-! ### Screener scan (`routers/screener.py`) -/

/-- `_rsi14` from `routers/screener.py`: `None` below 20 observations, else
the last RSI(14) value (the screener maps `inf` straight to `0.0`, with the
same net effect as the options-router variant, see `pyDiv`). -/
noncomputable def rsi14 (s : List ℝ) : Option ℝ :=
  if s.length < 20 then none
  else
    let delta := diffList s
    let up := delta.map (fun d => max d 0)
    let down := delta.map (fun d => max (-d) 0)
    let rs := List.zipWith pyDiv (ewmMean (1/14) up) (ewmMean (1/14) down)
    some (ilocNeg (rs.map (fun v => 100 - 100 / (1 + v))) 1)

/-- The per-ticker history that `yf.Ticker(t).history(...)` yields: close and
volume columns after `dropna`. -/
structure TickData where
  closes : List ℝ
  volumes : List ℤ

/-- One result row of the `scan` endpoint (the optional `closes`/`volumes`
history arrays are presentation only and omitted; `volume_rank_pct` is the
constant placeholder `0.5`). -/
structure ScanRow where
  symbol : String
  price : ℝ
  volume : ℤ
  ema_short : ℝ
  ema_long : ℝ
  rsi : ℝ
  mom_5d : ℝ
  volume_rank_pct : ℝ
  trend_up : Bool
  oversold : Bool
  overbought : Bool
  meets_min_volume : Bool
  score : ℝ

/-- The row the `scan` loop builds for one ticker with usable history.
`rsi = _rsi14(close) or 50.0` is a Python truthiness fallback: both `None`
and `0.0` become `50.0`. -/
noncomputable def scanRow (t : String) (d : TickData) (min_volume : ℤ) : ScanRow :=
  let close := d.closes
  let price := ilocNeg close 1
  let volume := (d.volumes.getLast?).getD 0
  let ema12 := ilocNeg (ema close 12) 1
  let ema26 := ilocNeg (ema close 26) 1
  let rsi : ℝ := match rsi14 close with
    | none => 50
    | some v => if v = 0 then 50 else v
  let mom5 : ℝ := if 6 < close.length then price / ilocNeg close 6 - 1 else 0
  let score := (if ema26 < ema12 then (4:ℝ)/10 else 0) + (if 0 < mom5 then 3/10 else 0)
    + 3/10 * max 0 (1 - |rsi - 50| / 50)
  { symbol := t, price := price, volume := volume, ema_short := ema12, ema_long := ema26,
    rsi := rsi, mom_5d := mom5, volume_rank_pct := 1/2,
    trend_up := if ema26 < ema12 then true else false,
    oversold := if rsi < 35 then true else false,
    overbought := if 65 < rsi then true else false,
    meets_min_volume := if min_volume ≤ volume then true else false,
    score := score }

/-- The `scan` endpoint of `routers/screener.py`, as a function of the
(already upper-cased, comma-split) ticker list and the per-ticker history
fetch. `data t = none` models a fetch failure or empty frame (`continue`);
an empty close or volume column makes `iloc[-1]` raise, which the blanket
`except` also turns into `continue`. Rows are sorted by descending score;
low volume only sets the `meets_min_volume` flag, it never drops a row. -/
noncomputable def scan (tickers : List String) (data : String → Option TickData)
    (min_volume : ℤ) : List ScanRow :=
  let results := tickers.filterMap (fun t =>
    match data t with
    | none => none
    | some d =>
      if d.closes = [] ∨ d.volumes = [] then none
      else some (scanRow t d min_volume))
  results.insertionSort (fun a b => b.score ≤ a.score)

/-! ## Claims -/

/-- C7: for all valid inputs `S>0, K>0, T>0, σ>0` (any `r`), the call delta
lies in the open interval `(0,1)`, the put delta lies in `(-1,0)`, and
`call_delta - put_delta = 1` exactly. -/
theorem call_put_delta_bounds (S K T r sigma : ℝ)
    (hS : 0 < S) (hK : 0 < K) (hT : 0 < T) (hsig : 0 < sigma) :
    ∃ c p, call_delta S K T r sigma = some c ∧ put_delta S K T r sigma = some p ∧
      0 < c ∧ c < 1 ∧ -1 < p ∧ p < 0 ∧ c - p = 1 := by
  have hguard : ¬(S ≤ 0 ∨ K ≤ 0 ∨ sigma ≤ 0 ∨ T ≤ 0) := by
    push_neg
    exact ⟨hS, hK, hsig, hT⟩
  set d := (Real.log (S / K) + (r + 0.5 * sigma * sigma) * T) / (sigma * Real.sqrt T) with hd
  have h1 : bs_d1 S K T r sigma = some d := by rw [bs_d1, if_neg hguard]
  refine ⟨norm_cdf d, norm_cdf d - 1, ?_, ?_, norm_cdf_pos d, norm_cdf_lt_one d, ?_, ?_, by ring⟩
  · rw [call_delta, h1]; rfl
  · rw [put_delta, call_delta, h1]; rfl
  · linarith [norm_cdf_pos d]
  · linarith [norm_cdf_lt_one d]

/-- C7 witness: the bounds at `S=K=T=σ=1`, `r=0`. -/
theorem call_put_delta_bounds_witness :
    ((0:ℝ) < 1) ∧
    (∃ c p, call_delta 1 1 1 0 1 = some c ∧ put_delta 1 1 1 0 1 = some p ∧
      0 < c ∧ c < 1 ∧ -1 < p ∧ p < 0 ∧ c - p = 1) :=
  ⟨by norm_num,
   call_put_delta_bounds 1 1 1 0 1 (by norm_num) (by norm_num) (by norm_num) (by norm_num)⟩

/-- C3 counterexample: `prob_finish_above_strike` in
`services/options_pricing.py` guards only `T ≤ 0` and `σ ≤ 0`; at the
degenerate input `S = -1 ≤ 0` (with `K = 100`, `T = 1`, `σ = 0.3`) the inner
`math.log(p.S/p.K)` raises a ValueError instead of returning the NaN
sentinel. -/
theorem prob_finish_raises_on_nonpositive_spot :
    pricing.prob_finish_above_strike ⟨-1, 100, 1, 0, 3/10⟩ = .error .mathDomain := by
  rw [pricing.prob_finish_above_strike, if_neg (by norm_num), pricing.d2, pricing.d1]
  rw [if_neg (by norm_num), if_pos (by norm_num)]
  rfl

/-- C3 amended: the `routers/options.py` pricing helpers (`bs_d1`, `bs_d2`,
`call_delta`, `put_delta`, `prob_ST_above_x`) return the NaN sentinel on every
degenerate input and never raise; the service-layer
`prob_finish_above_strike` returns the sentinel when `T ≤ 0` or `σ ≤ 0` but
raises (log domain error, resp. zero division) when instead `S`/`K` make
`log(S/K)` fail or `K = 0`. -/
theorem pricing_degenerate_nan :
    (∀ S K T r sigma : ℝ, (S ≤ 0 ∨ K ≤ 0 ∨ sigma ≤ 0 ∨ T ≤ 0) →
      bs_d1 S K T r sigma = none ∧
      bs_d2 (bs_d1 S K T r sigma) sigma T = none ∧
      call_delta S K T r sigma = none ∧
      put_delta S K T r sigma = none ∧
      prob_ST_above_x S K T r sigma = none) ∧
    (∀ p : BSParams, (p.T ≤ 0 ∨ p.sigma ≤ 0) →
      pricing.prob_finish_above_strike p = .ok none) ∧
    (∀ p : BSParams, 0 < p.T → 0 < p.sigma → p.K ≠ 0 → p.S / p.K ≤ 0 →
      pricing.prob_finish_above_strike p = .error .mathDomain) ∧
    (∀ p : BSParams, 0 < p.T → 0 < p.sigma → p.K = 0 →
      pricing.prob_finish_above_strike p = .error .zeroDivision) := by
  refine ⟨?_, ?_, ?_, ?_⟩
  · intro S K T r sigma hdeg
    have h1 : bs_d1 S K T r sigma = none := by rw [bs_d1, if_pos hdeg]
    have h5 : prob_ST_above_x S K T r sigma = none := by
      rw [prob_ST_above_x, if_neg]
      rintro ⟨hS, hK, hT, hsig⟩
      rcases hdeg with h | h | h | h <;> linarith
    refine ⟨h1, ?_, ?_, ?_, h5⟩
    · rw [h1, bs_d2]
    · rw [call_delta, h1]; rfl
    · rw [put_delta, call_delta, h1]; rfl
  · intro p hp
    rw [pricing.prob_finish_above_strike, if_pos hp]
  · intro p hT hsig hK hSK
    rw [pricing.prob_finish_above_strike, if_neg (by push_neg; exact ⟨hT, hsig⟩),
      pricing.d2, pricing.d1, if_neg hK, if_pos hSK]
    rfl
  · intro p hT hsig hK
    rw [pricing.prob_finish_above_strike, if_neg (by push_neg; exact ⟨hT, hsig⟩),
      pricing.d2, pricing.d1, if_pos hK]
    rfl

/-- C3 witness: the degenerate behaviour at concrete inputs — `bs_d1` and the
other router helpers return the sentinel at `S = 0`, and the service function
returns `ok none` at `T = 0` but raises at `K = 0` with `T = σ = 1`. -/
theorem pricing_degenerate_nan_witness :
    (bs_d1 0 1 1 0 1 = none ∧
      bs_d2 (bs_d1 0 1 1 0 1) 1 1 = none ∧
      call_delta 0 1 1 0 1 = none ∧
      put_delta 0 1 1 0 1 = none ∧
      prob_ST_above_x 0 1 1 0 1 = none) ∧
    pricing.prob_finish_above_strike ⟨1, 1, 0, 0, 1⟩ = .ok none ∧
    pricing.prob_finish_above_strike ⟨1, 0, 1, 0, 1⟩ = .error .zeroDivision :=
  ⟨pricing_degenerate_nan.1 0 1 1 0 1 (Or.inl le_rfl),
   pricing_degenerate_nan.2.1 ⟨1, 1, 0, 0, 1⟩ (Or.inl le_rfl),
   pricing_degenerate_nan.2.2.2 ⟨1, 0, 1, 0, 1⟩ (by norm_num) (by norm_num) rfl⟩

lemma sum_map_div (l : List ℝ) (s : ℝ) : (l.map (fun x => x / s)).sum = l.sum / s := by
  induction l with
  | nil => simp
  | cons a t ih => simp [ih, add_div]

/-- C9: every portfolio returned by the efficient-frontier endpoint carries a
weight vector that sums to exactly 1 and has no negative entry, provided each
underlying gamma draw vector is componentwise nonnegative with positive sum
(which holds almost surely for `np.random.dirichlet(np.ones(n))`). -/
theorem efficient_frontier_weights (draws : List (List ℝ)) (exp_returns : List ℝ)
    (cov : List (List ℝ))
    (hdraws : ∀ g ∈ draws, (∀ x ∈ g, 0 ≤ x) ∧ 0 < g.sum) :
    ∀ p ∈ efficient_frontier draws exp_returns cov,
      p.weights.sum = 1 ∧ ∀ w ∈ p.weights, 0 ≤ w := by
  intro p hp
  simp only [efficient_frontier] at hp
  have hp2 := List.mem_of_mem_take hp
  have hp3 := (List.perm_insertionSort _ _).mem_iff.mp hp2
  rw [List.mem_map] at hp3
  obtain ⟨g, hg, rfl⟩ := hp3
  obtain ⟨hnn, hpos⟩ := hdraws g hg
  constructor
  · show (dirichlet g).sum = 1
    rw [dirichlet, sum_map_div, div_self (ne_of_gt hpos)]
  · intro w hw
    rw [show (dirichlet g) = g.map (fun x => x / g.sum) from rfl, List.mem_map] at hw
    obtain ⟨x, hx, rfl⟩ := hw
    exact div_nonneg (hnn x hx) hpos.le

/-- C9 witness: the weight invariant at one concrete draw. -/
theorem efficient_frontier_weights_witness :
    (∀ g ∈ [[(1:ℝ), 3]], (∀ x ∈ g, 0 ≤ x) ∧ 0 < g.sum) ∧
    (∀ p ∈ efficient_frontier [[(1:ℝ), 3]] [0, 0] [[0, 0], [0, 0]],
      p.weights.sum = 1 ∧ ∀ w ∈ p.weights, 0 ≤ w) := by
  have h : ∀ g ∈ [[(1:ℝ), 3]], (∀ x ∈ g, 0 ≤ x) ∧ 0 < g.sum := by
    intro g hg
    rw [List.mem_singleton] at hg
    subst hg
    refine ⟨?_, by norm_num⟩
    intro x hx
    fin_cases hx <;> norm_num
  exact ⟨h, efficient_frontier_weights _ _ _ h⟩

/-- C10: a ticker whose latest daily volume is below `min_volume` is still
included in the scan results — with `meets_min_volume = false` — rather than
filtered out. -/
theorem scan_includes_low_volume (tickers : List String) (data : String → Option TickData)
    (min_volume : ℤ) (t : String) (d : TickData)
    (ht : t ∈ tickers) (hd : data t = some d) (hc : d.closes ≠ []) (hv : d.volumes ≠ [])
    (hlow : (d.volumes.getLast?).getD 0 < min_volume) :
    ∃ row ∈ scan tickers data min_volume,
      row.symbol = t ∧ row.meets_min_volume = false := by
  refine ⟨scanRow t d min_volume, ?_, rfl, ?_⟩
  · simp only [scan]
    rw [(List.perm_insertionSort _ _).mem_iff, List.mem_filterMap]
    refine ⟨t, ht, ?_⟩
    rw [hd]
    simp [hc, hv]
  · simp only [scanRow]
    rw [if_neg (not_le.mpr hlow)]

/-- C10 witness: a single low-volume ticker stays in the output with the flag
cleared. -/
theorem scan_includes_low_volume_witness :
    ("AA" ∈ ["AA"]) ∧
    (∃ row ∈ scan ["AA"] (fun s => if s = "AA" then some ⟨[1], [5]⟩ else none) 10,
      row.symbol = "AA" ∧ row.meets_min_volume = false) :=
  ⟨by simp,
   scan_includes_low_volume ["AA"] _ 10 "AA" ⟨[1], [5]⟩ (by simp) (by simp) (by simp)
     (by simp) (by simp)⟩

lemma loadChainV7_total (env : LoadEnv) (note : Option Note) (mn mx : ℤ) :
    ∃ b, loadChainV7 env note mn mx = Except.ok b := by
  rcases hv : env.v7 with e | v7
  · simp only [loadChainV7, hv]
    exact ⟨_, rfl⟩
  · simp only [loadChainV7, hv]
    split
    · exact ⟨_, rfl⟩
    · exact ⟨_, rfl⟩

lemma load_chain_total (env : LoadEnv) (mn mx : ℤ) :
    ∃ b, load_chain env mn mx = Except.ok b := by
  unfold load_chain
  rcases hy : env.yf with _ | y
  · exact loadChainV7_total env none mn mx
  · dsimp only
    rcases hs : loadChainYf env y mn mx with ⟨ob, n1⟩
    cases ob with
    | some bk => exact ⟨bk, rfl⟩
    | none => exact loadChainV7_total env n1 mn mx

lemma loadChainYf_error (env : LoadEnv) (y : YfEnv) (e : ProviderErr) (mn mx : ℤ)
    (h : y.options = .error e) :
    loadChainYf env y mn mx = (none, some (yfNote e)) := by
  simp only [loadChainYf, h]

lemma loadChainV7_error (env : LoadEnv) (note : Option Note) (e : ProviderErr) (mn mx : ℤ)
    (h : env.v7 = .error e) :
    loadChainV7 env note mn mx =
      .ok { price := none, expiries := [], chains := [], note := some (v7Note e) } := by
  simp only [loadChainV7, h]

/-- C8: `load_chain` never raises to its caller — for every provider
environment it returns a well-typed `{price, expiries, chains, note?}` book —
and when every provider fails the result is the empty book with the error
converted into the advisory note. -/
theorem load_chain_never_raises :
    (∀ env mn mx, ∃ b, load_chain env mn mx = Except.ok b) ∧
    (∀ env e mn mx, env.yf = none → env.v7 = .error e →
      load_chain env mn mx =
        .ok { price := none, expiries := [], chains := [], note := some (v7Note e) }) ∧
    (∀ env y e ev mn mx, env.yf = some y → y.options = .error e → env.v7 = .error ev →
      load_chain env mn mx =
        .ok { price := none, expiries := [], chains := [], note := some (v7Note ev) }) := by
  refine ⟨load_chain_total, ?_, ?_⟩
  · intro env e mn mx hyf hv7
    unfold load_chain
    rw [hyf]
    exact loadChainV7_error env none e mn mx hv7
  · intro env y e ev mn mx hyf hopt hv7
    unfold load_chain
    rw [hyf]
    dsimp only
    rw [loadChainYf_error env y e mn mx hopt]
    exact loadChainV7_error env (some (yfNote e)) ev mn mx hv7

/-- The environment in which every provider fails (yfinance not importable,
Yahoo v7 raising a non-429 error). -/
def envFail : LoadEnv := { yf := none, v7 := .error ⟨false⟩, today := 0 }

/-- C8 witness: the never-raises contract at the all-providers-fail
environment and the default 21–45 day window. -/
theorem load_chain_never_raises_witness :
    load_chain envFail 21 45 =
      .ok { price := none, expiries := [], chains := [], note := some (v7Note ⟨false⟩) } :=
  load_chain_never_raises.2.1 envFail ⟨false⟩ 21 45 rfl rfl

lemma yfValidEntry_window (today mn mx : ℤ) (o : Option ℤ) (de : ℤ × ℤ)
    (h : yfValidEntry today mn mx o = some de) : mn ≤ de.2 ∧ de.2 ≤ mx := by
  rcases o with _ | d
  · exact Option.noConfusion h
  · unfold yfValidEntry at h
    rw [Option.some_bind] at h
    dsimp only at h
    by_cases hcond : mn ≤ d - today ∧ d - today ≤ mx
    · rw [if_pos hcond] at h
      obtain rfl := Option.some.inj h
      exact hcond
    · rw [if_neg hcond] at h
      exact Option.noConfusion h

lemma yfEmit_dte (x : (ℤ × ℤ) × Except ProviderErr (List RawRow × List RawRow))
    (ch : BookChain) (h : yfEmit x = some ch) : ch.dte = x.1.2 := by
  rcases x with ⟨de, cpe⟩
  rcases cpe with e | cp
  · exact Option.noConfusion h
  · obtain rfl := Option.some.inj h
    rfl

lemma v7Emit_window (today mn mx : ℤ) (c : Option ℤ × List RawRow × List RawRow)
    (ch : BookChain) (h : v7Emit today mn mx c = some ch) :
    mn ≤ ch.dte ∧ ch.dte ≤ mx := by
  rcases c with ⟨o, cp⟩
  rcases o with _ | d
  · exact Option.noConfusion h
  · unfold v7Emit at h
    dsimp only at h
    by_cases hcond : mn ≤ d - today ∧ d - today ≤ mx
    · rw [if_pos hcond] at h
      obtain rfl := Option.some.inj h
      exact hcond
    · rw [if_neg hcond] at h
      exact Option.noConfusion h

lemma loadChainYf_chains (env : LoadEnv) (y : YfEnv) (mn mx : ℤ) (b : Book) (n : Option Note)
    (h : loadChainYf env y mn mx = (some b, n)) :
    ∀ ch ∈ b.chains, mn ≤ ch.dte ∧ ch.dte ≤ mx := by
  rcases hopt : y.options with e | exps
  · rw [loadChainYf, hopt] at h
    exact absurd (congrArg Prod.fst h) (by simp)
  · rw [loadChainYf, hopt] at h
    dsimp only at h
    split at h
    · exact absurd (congrArg Prod.fst h) (by simp)
    · have hb := congrArg Prod.fst h
      dsimp only at hb
      obtain rfl := Option.some.inj hb
      intro ch hch
      dsimp only at hch
      rw [List.mem_filterMap] at hch
      obtain ⟨x, hx, hxch⟩ := hch
      rw [List.mem_map] at hx
      obtain ⟨de, hde, rfl⟩ := hx
      rw [List.mem_filterMap] at hde
      obtain ⟨o, _, hentry⟩ := hde
      have hdte := yfEmit_dte _ _ hxch
      have hwin := yfValidEntry_window env.today mn mx o de hentry
      rw [hdte]
      exact hwin

lemma loadChainV7_chains (env : LoadEnv) (note : Option Note) (mn mx : ℤ) (b : Book)
    (h : loadChainV7 env note mn mx = .ok b) :
    ∀ ch ∈ b.chains, mn ≤ ch.dte ∧ ch.dte ≤ mx := by
  rcases hv : env.v7 with e | v7
  · rw [loadChainV7, hv] at h
    obtain rfl := Except.ok.inj h
    intro ch hch
    simp at hch
  · rw [loadChainV7, hv] at h
    dsimp only at h
    split at h
    · obtain rfl := Except.ok.inj h
      intro ch hch
      rw [List.mem_filterMap] at hch
      obtain ⟨c, _, hcch⟩ := hch
      exact v7Emit_window env.today mn mx c ch hcch
    · obtain rfl := Except.ok.inj h
      intro ch hch
      rw [List.mem_filterMap] at hch
      obtain ⟨c, _, hcch⟩ := hch
      exact v7Emit_window env.today mn mx c ch hcch

/-- C6 amended: `load_chain` performs no window widening at all — every chain
it returns lies inside the single requested `[min_dte, max_dte]` window (its
only caller passes the fixed 21–45 days), and when nothing falls inside that
window it gives up immediately with a note. -/
theorem load_chain_single_window (env : LoadEnv) (mn mx : ℤ) (b : Book)
    (h : load_chain env mn mx = .ok b) :
    ∀ ch ∈ b.chains, mn ≤ ch.dte ∧ ch.dte ≤ mx := by
  unfold load_chain at h
  rcases hy : env.yf with _ | y
  · rw [hy] at h
    exact loadChainV7_chains env none mn mx b h
  · rw [hy] at h
    dsimp only at h
    rcases hs : loadChainYf env y mn mx with ⟨ob, n1⟩
    rw [hs] at h
    cases ob with
    | some bk =>
      have h2 : (Except.ok bk : Except ProviderErr Book) = .ok b := h
      injection h2 with h2
      subst h2
      exact loadChainYf_chains env y mn mx bk n1 hs
    | none => exact loadChainV7_chains env n1 mn mx b h

/-- A provider environment whose only chain sits at 15 days to expiry:
outside 21–45 but inside the allegedly-widened 14–60 window. -/
noncomputable def envC6 : LoadEnv :=
  { yf := none
    v7 := .ok { price := some 100, expiries := [15],
                chains := [(some 15, ([⟨100, 1, 2, 0, 100, 100, 3/10⟩], []))] }
    today := 0 }

/-- C6 counterexample: with data available at 15 DTE, `load_chain` called for
21–45 days gives up with the empty noted book instead of widening to the
14–60 window (where the same environment does yield a chain). -/
theorem load_chain_no_widening :
    load_chain envC6 21 45 =
      .ok { price := some 100, expiries := [], chains := [], note := some .noExpiriesInWindow } ∧
    (∃ b, load_chain envC6 14 60 = Except.ok b ∧ b.chains ≠ []) ∧
    ((14:ℤ) ≤ 15 ∧ (15:ℤ) ≤ 60 ∧ ¬ ((21:ℤ) ≤ 15)) := by
  refine ⟨?_, ?_, by norm_num⟩
  · norm_num [load_chain, envC6, loadChainV7, v7Emit]
  · norm_num [load_chain, envC6, loadChainV7, v7Emit]
    rw [if_neg (by simp)]
    refine ⟨_, rfl, ?_⟩
    norm_num [v7Emit]
    exact fun hx => Option.noConfusion hx

/-- C6 amended witness: at the 14–60 window the returned chain (15 DTE) is
indeed inside the requested window. -/
theorem load_chain_single_window_witness :
    ∃ b, load_chain envC6 14 60 = Except.ok b ∧
      ∀ ch ∈ b.chains, (14:ℤ) ≤ ch.dte ∧ ch.dte ≤ 60 := by
  obtain ⟨b, hb⟩ := load_chain_total envC6 14 60
  exact ⟨b, hb, load_chain_single_window envC6 14 60 b hb⟩

/-- C5 counterexample: with usable history statistics, positive spot and
strike and `T_days = 30`, calling the P/L simulation with `n_paths = 0`
reaches `np.percentile` on the empty payoff array, which raises `IndexError`
instead of returning the no-result `None`. -/
theorem simulate_n_paths_zero_raises :
    simulate_option_pl_samples (some (0, 1)) 100 100 2 30 "CALL" 0 300 (fun _ => 0) =
      .error .indexError := by
  rw [simulate_option_pl_samples]
  dsimp only
  rw [if_neg (by norm_num)]
  simp only [np_percentile]
  rfl

/-- C5 amended: the simulation returns `None` for `T_days ≤ 0` (and likewise
for missing history or non-positive spot/strike), but `n_paths = 0` is not
guarded: it raises `IndexError` from `np.percentile` of an empty array. -/
theorem simulate_no_result_guard :
    (∀ mu_sig (S K premium : ℝ) (T_days : ℤ) otype n_paths sample_out Z, T_days ≤ 0 →
      simulate_option_pl_samples mu_sig S K premium T_days otype n_paths sample_out Z =
        .ok none) ∧
    (∀ (mu sig S K premium : ℝ) (T_days : ℤ) otype sample_out Z,
      0 < S → 0 < K → 0 < T_days →
      simulate_option_pl_samples (some (mu, sig)) S K premium T_days otype 0 sample_out Z =
        .error .indexError) := by
  constructor
  · intro ms S K prem T otype np so Z hT
    rcases ms with _ | ⟨mu, sig⟩
    · rfl
    · rw [simulate_option_pl_samples]
      dsimp only
      rw [if_pos (Or.inr (Or.inr hT))]
  · intro mu sig S K prem T otype so Z hS hK hT
    rw [simulate_option_pl_samples]
    dsimp only
    rw [if_neg (by push_neg; exact ⟨hS, hK, hT⟩)]
    simp only [np_percentile]
    rfl

/-- C5 witness: the guard at `T_days = -1` and the raise at `n_paths = 0`
for concrete inputs. -/
theorem simulate_no_result_guard_witness :
    ((-1:ℤ) ≤ 0 ∧
      simulate_option_pl_samples (some (0, 1)) 100 100 2 (-1) "CALL" 1200 300 (fun _ => 0) =
        .ok none) ∧
    ((0:ℝ) < 100 ∧ (0:ℤ) < 30 ∧
      simulate_option_pl_samples (some (0, 1)) 100 100 2 30 "PUT" 0 300 (fun _ => 0) =
        .error .indexError) :=
  ⟨⟨by norm_num,
    simulate_no_result_guard.1 (some (0, 1)) 100 100 2 (-1) "CALL" 1200 300 (fun _ => 0)
      (by norm_num)⟩,
   ⟨by norm_num, by norm_num,
    simulate_no_result_guard.2 0 1 100 100 2 30 "PUT" 300 (fun _ => 0)
      (by norm_num) (by norm_num) (by norm_num)⟩⟩

/-- A raw row with positive strike and quotes, used for the C1 instances. -/
noncomputable def rowC1 : RawRow := ⟨1, 2, 2, 0, 7, 3, 0⟩

/-- The record `enrich_contracts` emits for `rowC1` at spot `S = 0` (a zero
spot is reachable: the selection code uses `book.get("price") or 0.0`).
Both Greeks are the NaN sentinel because `bs_d1` rejects `S ≤ 0`, yet the row
is kept, for the filter checks only `isfinite(S)`. -/
noncomputable def recC1 : EnrichedContract :=
  { expiry := 30, type := "CALL", strike := pyRound 4 1, mid_price := pyRound 4 2,
    iv := pyRound 6 (1/1000000), delta := none, breakeven := pyRound 4 3,
    oi := 7, volume := 3, chance_profit := none }

lemma recC1_mem : recC1 ∈ enrich_contracts 0 (some 30) 0 [rowC1] true := by
  norm_num [enrich_contracts, rowC1, recC1, rowPremium, call_delta, bs_d1, prob_ST_above_x,
    max_def, List.filterMap, EnrichedContract.mk.injEq]

/-- C1 counterexample: at spot `S = 0` (not strictly positive) the enrichment
still emits a record for a row with positive strike and premium — the row is
not discarded, because the source tests `math.isfinite(S)` rather than
`S > 0`. -/
theorem enrich_contracts_spot_cex :
    (∃ rec, rec ∈ enrich_contracts 0 (some 30) 0 [rowC1] true) ∧ ¬ (0:ℝ) > 0 :=
  ⟨⟨recC1, recC1_mem⟩, lt_irrefl 0⟩

/-- C1 amended: every record emitted by `enrich_contracts` comes from a row
whose strike and computed premium are strictly positive (and carries their
4-decimal roundings); the spot is only checked for finiteness, not
positivity. -/
theorem enrich_contracts_guard (S : ℝ) (e : Option ℤ) (today : ℤ) (rows : List RawRow)
    (is_call : Bool) (rec : EnrichedContract)
    (hrec : rec ∈ enrich_contracts S e today rows is_call) :
    ∃ rrow ∈ rows, 0 < rrow.strike ∧ 0 < rowPremium rrow ∧
      rec.strike = pyRound 4 rrow.strike ∧ rec.mid_price = pyRound 4 (rowPremium rrow) := by
  rcases e with _ | expiry
  · exact absurd hrec (List.not_mem_nil rec)
  · rw [enrich_contracts] at hrec
    dsimp only at hrec
    rw [List.mem_filterMap] at hrec
    obtain ⟨rrow, hmem, hf⟩ := hrec
    by_cases hcond : 0 < rrow.strike ∧ 0 < rowPremium rrow
    · rw [if_neg (not_not_intro hcond)] at hf
      obtain rfl := Option.some.inj hf
      exact ⟨rrow, hmem, hcond.1, hcond.2, rfl, rfl⟩
    · rw [if_pos hcond] at hf
      exact Option.noConfusion hf

/-- C1 witness: the guard at the concrete emitted record `recC1`. -/
theorem enrich_contracts_guard_witness :
    ∃ rrow ∈ [rowC1], 0 < rrow.strike ∧ 0 < rowPremium rrow ∧
      recC1.strike = pyRound 4 rrow.strike ∧ recC1.mid_price = pyRound 4 (rowPremium rrow) :=
  enrich_contracts_guard 0 (some 30) 0 [rowC1] true recC1 recC1_mem

lemma pickCands_affordable (book : Book) (prefer : String) (bp : ℝ) (today : ℤ)
    (cand : Candidate) (hc : cand ∈ pickCands book prefer bp today) :
    cand.mid_price * 100 ≤ bp := by
  rw [pickCands] at hc
  dsimp only at hc
  rw [List.mem_flatMap] at hc
  obtain ⟨ch, hch, hcand⟩ := hc
  rw [List.mem_filterMap] at hcand
  obtain ⟨c, hcrows, hf⟩ := hcand
  by_cases h1 : bp < c.mid_price * 100
  · rw [if_pos h1] at hf
    exact Option.noConfusion hf
  · rw [if_neg h1] at hf
    by_cases h2 : c.oi < 50 ∧ c.volume < 10
    · rw [if_pos h2] at hf
      exact Option.noConfusion hf
    · rw [if_neg h2] at hf
      rcases hdelta : c.delta with _ | dval
      · rw [hdelta] at hf
        exact Option.noConfusion hf
      · rw [hdelta] at hf
        obtain rfl := Option.some.inj hf
        exact not_lt.mp h1

/-- C4: whenever contract selection returns a suggested contract, that
contract satisfies `mid_price × 100 ≤ buying_power` — the affordability
filter is applied to every candidate before ranking. -/
theorem pick_contract_affordable (book : Book) (trend : TrendResult) (buying_power : ℝ)
    (today : ℤ) (mu_sig : Option (ℝ × ℝ)) (Z : ℕ → ℝ) (res : PickResult) (c : Candidate)
    (hok : pick_contracts_for_symbol book trend buying_power today mu_sig Z = .ok res)
    (hsugg : res.suggestion = some c) :
    c.mid_price * 100 ≤ buying_power := by
  rw [pick_contracts_for_symbol] at hok
  dsimp only at hok
  by_cases hempty : book.chains = []
  · rw [if_pos hempty] at hok
    obtain rfl := Except.ok.inj hok
    exact absurd hsugg (by simp)
  · rw [if_neg hempty] at hok
    rcases hsort : (pickCands book trend.trend buying_power today).insertionSort candLE with
      _ | ⟨best, rest⟩
    · rw [hsort] at hok
      obtain rfl := Except.ok.inj hok
      exact absurd hsugg (by simp)
    · rw [hsort] at hok
      dsimp only at hok
      rcases hsim : simulate_option_pl_samples mu_sig (book.price.getD 0) best.strike
          best.mid_price (best.expiry - today) best.type 1200 300 Z with e | sim
      · rw [hsim] at hok
        exact Except.noConfusion hok
      · rw [hsim] at hok
        have hres := Except.ok.inj hok
        subst hres
        dsimp only at hsugg
        obtain rfl := Option.some.inj hsugg
        have hbest : best ∈ (pickCands book trend.trend buying_power today).insertionSort candLE := by
          rw [hsort]
          exact List.mem_cons_self _ _
        have hmem := (List.perm_insertionSort candLE _).mem_iff.mp hbest
        exact pickCands_affordable book trend.trend buying_power today best hmem

/-- The environment of the C4 witness: one chain with one liquid, affordable
call at strike 100, an up-trend, and no history statistics (so the simulation
step returns its no-result value). -/
noncomputable def rowW4 : RawRow := ⟨100, 2, 3, 0, 500, 100, 3/10⟩

/-- The one-chain book of the C4 witness. -/
noncomputable def bookW4 : Book :=
  { price := some 100, expiries := [30], chains := [⟨30, 30, [rowW4], []⟩], note := none }

/-- The trend record of the C4 witness. -/
noncomputable def trendW4 : TrendResult := { trend := "up", score := 7/10, rsi := some 50 }

/-- C4 witness: on the concrete book the selection suggests a contract and it
is affordable for buying power 5000. -/
theorem pick_contract_affordable_witness :
    ∃ res c, pick_contracts_for_symbol bookW4 trendW4 5000 0 none (fun _ => 0) =
        Except.ok res ∧ res.suggestion = some c ∧ c.mid_price * 100 ≤ 5000 := by
  obtain ⟨res, c, hres, hc⟩ : ∃ res c,
      pick_contracts_for_symbol bookW4 trendW4 5000 0 none (fun _ => 0) = Except.ok res ∧
        res.suggestion = some c := by
    norm_num [pick_contracts_for_symbol, bookW4, trendW4, rowW4, pickCands, enrich_contracts,
      rowPremium, call_delta, bs_d1, prob_ST_above_x, max_def, simulate_option_pl_samples,
      List.insertionSort, List.orderedInsert, List.flatMap, List.filterMap, pyRound,
      Bind.bind, Except.bind]
    exact ⟨_, rfl, _, rfl⟩
  exact ⟨res, c, hres, hc,
    pick_contract_affordable bookW4 trendW4 5000 0 none (fun _ => 0) res c hres hc⟩

lemma getD_replicate (n i : ℕ) (c d : ℝ) (h : i < n) :
    (List.replicate n c).getD i d = c := by
  induction n generalizing i with
  | zero => omega
  | succ n ih =>
    cases i with
    | zero => rfl
    | succ i =>
      rw [List.replicate_succ, List.getD_cons_succ]
      exact ih i (by omega)

lemma ilocNeg_replicate (n k : ℕ) (c : ℝ) (h1 : 1 ≤ k) (h2 : k ≤ n) :
    ilocNeg (List.replicate n c) k = c := by
  rw [ilocNeg, List.length_replicate]
  exact getD_replicate n (n - k) c 0 (by omega)

lemma diffList_replicate (n : ℕ) (c : ℝ) :
    diffList (List.replicate (n + 1) c) = List.replicate n 0 := by
  induction n with
  | zero => rfl
  | succ n ih =>
    rw [show List.replicate (n + 1 + 1) c = c :: c :: List.replicate n c by
          rw [List.replicate_succ, List.replicate_succ],
        show List.replicate (n + 1) (0:ℝ) = 0 :: List.replicate n 0 from List.replicate_succ ..]
    show (c - c) :: diffList (c :: List.replicate n c) = 0 :: List.replicate n 0
    rw [sub_self, ← List.replicate_succ, ih]

lemma ewmAux_replicate (alpha c : ℝ) (n : ℕ) :
    ewmAux alpha c (List.replicate n c) = List.replicate n c := by
  induction n with
  | zero => rfl
  | succ n ih =>
    rw [List.replicate_succ]
    show ((1 - alpha) * c + alpha * c) ::
        ewmAux alpha ((1 - alpha) * c + alpha * c) (List.replicate n c) = c :: List.replicate n c
    have hy : (1 - alpha) * c + alpha * c = c := by ring
    rw [hy, ih]

lemma ewmMean_replicate (alpha c : ℝ) (n : ℕ) :
    ewmMean alpha (List.replicate n c) = List.replicate n c := by
  cases n with
  | zero => rfl
  | succ n =>
    rw [List.replicate_succ]
    show c :: ewmAux alpha c (List.replicate n c) = c :: List.replicate n c
    rw [ewmAux_replicate]

lemma ema_replicate (c : ℝ) (n span : ℕ) :
    ema (List.replicate n c) span = List.replicate n c :=
  ewmMean_replicate _ c n

lemma zipWith_pyDiv_zero (m : ℕ) :
    List.zipWith pyDiv (List.replicate m (0:ℝ)) (List.replicate m 0) = List.replicate m 0 := by
  induction m with
  | zero => rfl
  | succ m ih =>
    rw [List.replicate_succ]
    show pyDiv 0 0 :: List.zipWith pyDiv (List.replicate m 0) (List.replicate m 0) =
      0 :: List.replicate m 0
    rw [ih, pyDiv, if_pos rfl]

lemma compute_trend_flat (c : ℝ) (hc : 0 < c) (n : ℕ) (hn : 50 ≤ n) :
    compute_trend (List.replicate n c) = { trend := "down", score := 0, rsi := some 0 } := by
  have hlen : (List.replicate n c).length = n := List.length_replicate n c
  have h11 : 11 < n := by omega
  have hn1 : n - 1 + 1 = n := by omega
  have hdiff : diffList (List.replicate n c) = List.replicate (n - 1) (0:ℝ) := by
    conv_lhs => rw [← hn1]
    exact diffList_replicate (n - 1) c
  have hiloc1 : ilocNeg (List.replicate n c) 1 = c :=
    ilocNeg_replicate n 1 c (by omega) (by omega)
  have hiloc11 : ilocNeg (List.replicate n c) 11 = c :=
    ilocNeg_replicate n 11 c (by omega) (by omega)
  have hilocz : ilocNeg (List.replicate (n - 1) (0:ℝ)) 1 = 0 :=
    ilocNeg_replicate (n - 1) 1 0 (by omega) (by omega)
  rw [compute_trend, if_neg (by rw [hlen]; omega)]
  simp only [hlen, ema_replicate, hdiff, hiloc1, hiloc11, List.map_replicate, max_self,
    neg_zero, ewmMean_replicate, zipWith_pyDiv_zero, h11, if_true, lt_self_iff_false, if_false,
    div_self hc.ne']
  norm_num [hilocz]

/-- C2 amended: a flat daily close series (all prices equal and positive,
at least 50 observations) yields RSI(14) = 0 — the 0/0 gain/loss ratio is
filled with 0, so `rsi = 100 - 100/(1+0) = 0` — and a zero score, hence
trend "down", not RSI ≈ 50 and "neutral". -/
theorem compute_trend_flat_series (c : ℝ) (n : ℕ) (hc : 0 < c) (hn : 50 ≤ n) :
    compute_trend (List.replicate n c) = { trend := "down", score := 0, rsi := some 0 } :=
  compute_trend_flat c hc n hn

/-- C2 counterexample: the flat 60-point series at price 100 is classified
"down" with RSI 0, not "neutral" with RSI 50 (to any tolerance below 49). -/
theorem compute_trend_flat_cex :
    ¬ ((compute_trend (List.replicate 60 (100:ℝ))).trend = "neutral" ∧
       ∃ v, (compute_trend (List.replicate 60 (100:ℝ))).rsi = some v ∧ |v - 50| ≤ 1) := by
  rw [compute_trend_flat 100 (by norm_num) 60 (by norm_num)]
  rintro ⟨h1, -⟩
  exact absurd h1 (by decide)

/-- C2 witness: the flat-series behaviour at 60 points of price 100. -/
theorem compute_trend_flat_series_witness :
    ((0:ℝ) < 100 ∧ 50 ≤ 60) ∧
    compute_trend (List.replicate 60 (100:ℝ)) =
      { trend := "down", score := 0, rsi := some 0 } :=
  ⟨⟨by norm_num, by norm_num⟩, compute_trend_flat_series 100 60 (by norm_num) (by norm_num)⟩

end Quant
